import Mathlib

/-!
Verification development for the RBLX React LSP repository.

Part 1 embeds the two VSCode extension front-ends
(src/vscode-extension/src/extension.ts and src/rblx-react-lsp/src/extension.ts)
as pure Lean functions over an explicit extension state, with an effect trace
recording the host API calls the TypeScript code performs.

Part 2 models the LSP engine of the out-of-tree lsp-server binary, which is
referenced by the front-ends but absent from this repository; those
definitions are modelled from the design specification.
-/

namespace RblxReact

/-! ## Part 1: the two extension front-ends -/

/-- Transport kinds of the vscode-languageclient library; both front-ends use
stdio. -/
inductive TransportKind where
  | stdio
  | ipc
deriving DecidableEq

/-- One executable description inside ServerOptions: a command path and a
transport. -/
structure ExecutableOptions where
  command : String
  transport : TransportKind
deriving DecidableEq

/-- The ServerOptions record built by both activate functions: a run and a
debug executable description. -/
structure ServerOptions where
  run : ExecutableOptions
  debug : ExecutableOptions
deriving DecidableEq

/-- One entry of a documentSelector: a scheme and a language id. -/
structure DocumentFilter where
  scheme : String
  language : String
deriving DecidableEq

/-- The synchronize block of LanguageClientOptions: the glob pattern passed to
vscode.workspace.createFileSystemWatcher. -/
structure SynchronizeOptions where
  fileEventsGlob : String
deriving DecidableEq

/-- The LanguageClientOptions record built by both activate functions. -/
structure LanguageClientOptions where
  documentSelector : List DocumentFilter
  synchronize : SynchronizeOptions
deriving DecidableEq

/-- The LanguageClient value constructed by activate: id, display name, server
options and client options. -/
structure LanguageClient where
  id : String
  name : String
  serverOptions : ServerOptions
  clientOptions : LanguageClientOptions
deriving DecidableEq

/-- The vscode.ExtensionContext as the front-ends use it: only its
asAbsolutePath method, which resolves a relative path against the extension
install directory. -/
structure ExtensionContext where
  asAbsolutePath : String → String

/-- Host API effects performed by the front-ends.  The parse, analyze and
publishDiagnostics constructors exist so that "the front-ends perform no
parsing, analysis or diagnostics themselves" is a non-vacuous statement about
their traces. -/
inductive Effect where
  | createFileSystemWatcher (glob : String)
  | startClient (c : LanguageClient)
  | stopClient (c : LanguageClient)
  | consoleLog (msg : String)
  | parseSource (text : String)
  | analyzeSource (text : String)
  | publishDiagnostics (uri : String)
deriving DecidableEq

/-- Whether an effect is parsing, analysis or diagnostics work. -/
def Effect.isAnalysisWork : Effect → Bool
  | .parseSource _ => true
  | .analyzeSource _ => true
  | .publishDiagnostics _ => true
  | _ => false

/-- Whether an effect is a client.start() call. -/
def Effect.isStart : Effect → Bool
  | .startClient _ => true
  | _ => false

/-- Whether an effect is a client.stop() call. -/
def Effect.isStop : Effect → Bool
  | .stopClient _ => true
  | _ => false

/-- Module state of either extension file: the module-level `client` binding,
undefined (none) until activate assigns it. -/
structure ExtState where
  client : Option LanguageClient
deriving DecidableEq

/-- Node's path.join on the segment list both files use (no "." or ".."
normalisation is needed for these inputs). -/
def pathJoin (segments : List String) : String :=
  String.intercalate "/" segments

namespace VSCodeExtension

/-- Embedding of activate from src/vscode-extension/src/extension.ts: resolves
the server path `../lsp-server/target/debug/React_lSP`, builds stdio
server options, a documentSelector for scheme `file` / language `.luau`, a
file-system watcher on `**/.clientrc`, constructs the LanguageClient
`rblxReactLSP` and starts it.  Returns the new module state and the effect
trace. -/
def activate (ctx : ExtensionContext) : ExtState × List Effect :=
  let serverPath :=
    ctx.asAbsolutePath (pathJoin ["..", "lsp-server", "target", "debug", "React_lSP"])
  let serverOptions : ServerOptions :=
    { run := { command := serverPath, transport := TransportKind.stdio }
      debug := { command := serverPath, transport := TransportKind.stdio } }
  let clientOptions : LanguageClientOptions :=
    { documentSelector := [{ scheme := "file", language := ".luau" }]
      synchronize := { fileEventsGlob := "**/.clientrc" } }
  let client : LanguageClient :=
    { id := "rblxReactLSP", name := "RBLX React LSP"
      serverOptions := serverOptions, clientOptions := clientOptions }
  ({ client := some client },
    [Effect.createFileSystemWatcher "**/.clientrc", Effect.startClient client])

/-- Embedding of deactivate from src/vscode-extension/src/extension.ts: if the
module-level client was never assigned it returns undefined (none) without
calling stop; otherwise it returns exactly the client.stop() call. -/
def deactivate (st : ExtState) : Option Effect :=
  match st.client with
  | none => none
  | some c => some (Effect.stopClient c)

end VSCodeExtension

namespace RblxReactLsp

/-- The module-level `ver` constant of src/rblx-react-lsp/src/extension.ts. -/
def ver : String := "V3"

/-- Embedding of activate from src/rblx-react-lsp/src/extension.ts: resolves
the server path `../lsp-server/target/debug/React_LSP.exe`, builds stdio
server options, a documentSelector for scheme `file` / language `lua`, a
file-system watcher on `**/.clientrc`, logs a starting message, constructs
the LanguageClient `rblxReactLSP`, starts it, and logs once the start promise
resolves. -/
def activate (ctx : ExtensionContext) : ExtState × List Effect :=
  let serverPath :=
    ctx.asAbsolutePath (pathJoin ["..", "lsp-server", "target", "debug", "React_LSP.exe"])
  let serverOpts : ServerOptions :=
    { run := { command := serverPath, transport := TransportKind.stdio }
      debug := { command := serverPath, transport := TransportKind.stdio } }
  let clientOpts : LanguageClientOptions :=
    { documentSelector := [{ scheme := "file", language := "lua" }]
      synchronize := { fileEventsGlob := "**/.clientrc" } }
  let client : LanguageClient :=
    { id := "rblxReactLSP", name := "RBLX React LSP"
      serverOptions := serverOpts, clientOptions := clientOpts }
  ({ client := some client },
    [Effect.createFileSystemWatcher "**/.clientrc",
     Effect.consoleLog ("Server " ++ ver ++ " starting..."),
     Effect.startClient client,
     Effect.consoleLog ("Server " ++ ver ++ " started!")])

/-- Embedding of deactivate from src/rblx-react-lsp/src/extension.ts: textually
identical to the other front-end's deactivate. -/
def deactivate (st : ExtState) : Option Effect :=
  match st.client with
  | none => none
  | some c => some (Effect.stopClient c)

end RblxReactLsp

/-- A concrete activation context whose asAbsolutePath is the identity,
used to evaluate the front-ends at an explicit input. -/
def ctx0 : ExtensionContext := { asAbsolutePath := fun s => s }

/-- A concrete language client value, used to evaluate deactivate at an
explicit assigned-client state. -/
def client0 : LanguageClient :=
  { id := "rblxReactLSP", name := "RBLX React LSP"
    serverOptions :=
      { run := { command := "server", transport := TransportKind.stdio }
        debug := { command := "server", transport := TransportKind.stdio } }
    clientOptions :=
      { documentSelector := [{ scheme := "file", language := "lua" }]
        synchronize := { fileEventsGlob := "**/.clientrc" } } }

/-! ## Part 2: the LSP engine of the out-of-tree lsp-server

The lsp-server binary the front-ends launch is not part of this repository;
the definitions below are modelled from the design specification of its five
components (Lexer, Parser, Incremental Document Store, Analyzer, Protocol
Session). -/

/-- Modelled from the spec: the token kinds produced by the Lexer (the
lsp-server's lexer is absent from src/); unrecognized characters get the
invalid kind. -/
inductive TokenKind where
  | identifier
  | keyword
  | operator
  | literal
  | comment
  | whitespace
  | invalid
  | eof
deriving DecidableEq

/-- Modelled from the spec: a token is a kind together with the slice of
source text it covers (its span). -/
structure Token where
  kind : TokenKind
  span : List Char
deriving DecidableEq

/-- Modelled from the spec: diagnostic severities. -/
inductive Severity where
  | error
  | warning
  | info
  | hint
deriving DecidableEq

/-- Modelled from the spec: a diagnostic is a severity, the covered span, a
message and the source component tag. -/
structure Diagnostic where
  severity : Severity
  span : List Char
  message : String
  source : String
deriving DecidableEq

/-- The keyword set of the generic Lua-family grammar the spec assumes. -/
def luaKeywords : List String :=
  ["and", "break", "do", "else", "elseif", "end", "false", "for", "function",
   "goto", "if", "in", "local", "nil", "not", "or", "repeat", "return",
   "then", "true", "until", "while"]

/-- Characters that may start an identifier. -/
def isIdentStart (c : Char) : Bool := c.isAlpha || c = '_'

/-- Characters that may continue an identifier. -/
def isIdentChar (c : Char) : Bool := c.isAlphanum || c = '_'

/-- Single-character operator and punctuation set. -/
def isOpChar (c : Char) : Bool := "+-*/%^#=~<>()[];:,.".toList.contains c

/-- Modelled from the spec: one step of the Lexer.  Given the first character
and the remaining characters, returns the kind of the next token and how many
of the remaining characters belong to it (the token's span is the first
character followed by that many).  Unrecognized characters yield an invalid
one-character token rather than a failure. -/
def lexOne (c : Char) (cs : List Char) : TokenKind × Nat :=
  if c.isWhitespace then
    (TokenKind.whitespace, (cs.takeWhile Char.isWhitespace).length)
  else if isIdentStart c then
    let n := (cs.takeWhile isIdentChar).length
    (if luaKeywords.contains (String.mk (c :: cs.take n)) then TokenKind.keyword
     else TokenKind.identifier, n)
  else if c.isDigit then
    (TokenKind.literal, (cs.takeWhile Char.isDigit).length)
  else if c = '-' && cs.head? == some '-' then
    (TokenKind.comment, (cs.takeWhile (fun d => d != '\n')).length)
  else if c = '"' then
    let n := (cs.takeWhile (fun d => d != '"')).length
    (TokenKind.literal, if n < cs.length then n + 1 else n)
  else if isOpChar c then
    (TokenKind.operator, 0)
  else
    (TokenKind.invalid, 0)

/-- Modelled from the spec: the Lexer.  Total on every character sequence; it
produces a finite token sequence covering the whole input and ending in a
single end-of-file token with an empty span. -/
def lexAll : List Char → List Token
  | [] => [{ kind := TokenKind.eof, span := [] }]
  | c :: cs =>
    let r := lexOne c cs
    { kind := r.1, span := c :: cs.take r.2 } :: lexAll (cs.drop r.2)
termination_by l => l.length
decreasing_by simp [List.length_drop]; omega

/-- The diagnostic attached to an invalid token, none for the other kinds. -/
def invalidDiag (t : Token) : Option Diagnostic :=
  if t.kind = TokenKind.invalid then
    some { severity := Severity.error, span := t.span,
           message := "unrecognized character", source := "lexer" }
  else none

/-- Modelled from the spec: the diagnostics attached to a lex of the input,
one per invalid token. -/
def lexerDiagnostics (l : List Char) : List Diagnostic :=
  (lexAll l).filterMap invalidDiag

/-- Modelled from the spec: the Protocol Session states. -/
inductive SessionState where
  | uninitialized
  | initialized
  | shuttingDown
  | closed
deriving DecidableEq

/-- Numeric position of a session state along the
Uninitialized → Initialized → ShuttingDown → Closed chain. -/
def SessionState.rank : SessionState → Nat
  | .uninitialized => 0
  | .initialized => 1
  | .shuttingDown => 2
  | .closed => 3

/-- Modelled from the spec: the closed set of protocol methods the session
dispatches on.  initReq is the initialize request, initializedNote the
initialized notification, exitNote the exit notification. -/
inductive Method where
  | initReq
  | initializedNote
  | shutdownReq
  | exitNote
  | didOpen
  | didChange
  | didClose
  | hover
  | completion
  | definition
deriving DecidableEq

/-- Which methods are requests (expect a response); the others are
notifications. -/
def Method.isRequest : Method → Bool
  | .initReq => true
  | .shutdownReq => true
  | .hover => true
  | .completion => true
  | .definition => true
  | _ => false

/-- Modelled from the spec: the session-level error conditions. -/
inductive SessionError where
  | serverNotInitialized
  | invalidState
  | invalidRequest
deriving DecidableEq

/-- Modelled from the spec: one transition of the Protocol Session state
machine.  Exactly one initialize request is accepted, and only from the
uninitialized state; any other message while uninitialized fails with
serverNotInitialized except shutdown and exit, which are accepted in every
state before closed; exit always moves to closed; everything after closed
fails with invalidState. -/
def step : SessionState → Method → SessionState × Except SessionError Unit
  | .uninitialized, .initReq => (.initialized, Except.ok ())
  | .uninitialized, .shutdownReq => (.shuttingDown, Except.ok ())
  | .uninitialized, .exitNote => (.closed, Except.ok ())
  | .uninitialized, _ => (.uninitialized, Except.error SessionError.serverNotInitialized)
  | .initialized, .initReq => (.initialized, Except.error SessionError.invalidRequest)
  | .initialized, .shutdownReq => (.shuttingDown, Except.ok ())
  | .initialized, .exitNote => (.closed, Except.ok ())
  | .initialized, _ => (.initialized, Except.ok ())
  | .shuttingDown, .exitNote => (.closed, Except.ok ())
  | .shuttingDown, .shutdownReq => (.shuttingDown, Except.ok ())
  | .shuttingDown, _ => (.shuttingDown, Except.error SessionError.invalidRequest)
  | .closed, _ => (.closed, Except.error SessionError.invalidState)

/-- Modelled from the spec: processing a sequence of incoming messages from
a starting state. -/
def runSession (s : SessionState) (msgs : List Method) : SessionState :=
  msgs.foldl (fun st m => (step st m).1) s

/-- Modelled from the spec: splitting source text into top-level
declarations, accumulator form.  A declaration is a maximal ;-terminated
chunk; the trailing chunk may be unterminated.  The accumulator holds the
reversed characters of the chunk being built. -/
def splitDeclsAux : List Char → List Char → List (List Char)
  | [], acc => if acc = [] then [] else [acc.reverse]
  | c :: cs, acc =>
    if c = ';' then (acc.reverse ++ [';']) :: splitDeclsAux cs []
    else splitDeclsAux cs (c :: acc)

/-- Modelled from the spec: the top-level declaration chunks of a source
text (the lsp-server's parser is absent from src/; the spec fixes only a
generic Lua-family grammar, so the top-level boundary is the statement
terminator). -/
def splitDecls (l : List Char) : List (List Char) :=
  splitDeclsAux l []

/-- Modelled from the spec: a node of the concrete tree, one per top-level
declaration: the declaration's source slice and its token sequence. -/
structure DeclNode where
  src : List Char
  toks : List Token
deriving DecidableEq

/-- Modelled from the spec: parsing one top-level declaration. -/
def parseDecl (d : List Char) : DeclNode :=
  { src := d, toks := lexAll d }

/-- Modelled from the spec: the full (from scratch) parse of a source text:
one node per top-level declaration. -/
def parseFull (t : List Char) : List DeclNode :=
  (splitDecls t).map parseDecl

/-- Modelled from the spec: an incremental edit — replace len characters at
offset start by newText; baseVersion is the document version the edit was
made against. -/
structure Edit where
  start : Nat
  len : Nat
  newText : List Char
  baseVersion : Nat
deriving DecidableEq

/-- Range replacement on a text buffer. -/
def spliceText (t : List Char) (start len : Nat) (ins : List Char) : List Char :=
  t.take start ++ ins ++ t.drop (start + len)

/-- No statement terminator occurs in the chunk. -/
def noSemi : List Char → Bool
  | [] => true
  | c :: cs => (c != ';') && noSemi cs

/-- The chunk is a complete declaration: nonempty, ends in the terminator,
and has no earlier terminator. -/
def isClosedDecl (d : List Char) : Bool :=
  !d.isEmpty && d.getLast? == some ';' && noSemi d.dropLast

/-- The chunk is an unterminated trailing declaration: nonempty with no
terminator. -/
def isOpenDecl (d : List Char) : Bool :=
  !d.isEmpty && noSemi d

/-- Modelled from the spec: locating the single top-level declaration that
contains the edit range.  Walks the declaration chunks; when the edit lies
inside one chunk it splices the chunk and checks that the result is still a
single declaration in place (closed, or open in trailing position),
returning the chunk's index and new text; otherwise reuse is not applicable
and none is returned. -/
def patchDecls : List (List Char) → Nat → Nat → List Char → Option (Nat × List Char)
  | [], _, _, _ => none
  | d :: rest, start, len, ins =>
    if start + len ≤ d.length then
      if isClosedDecl (d.take start ++ ins ++ d.drop (start + len)) ||
          (rest.isEmpty && isOpenDecl (d.take start ++ ins ++ d.drop (start + len))) then
        some (0, d.take start ++ ins ++ d.drop (start + len))
      else none
    else if d.length ≤ start then
      (patchDecls rest (start - d.length) len ins).map fun p => (p.1 + 1, p.2)
    else none

/-- Well-formed declaration chunk lists, the shape splitDecls produces: every
chunk is a complete (;-terminated) declaration except that the last may be
unterminated. -/
def declsWF : List (List Char) → Bool
  | [] => true
  | d :: rest => (isClosedDecl d || (rest.isEmpty && isOpenDecl d)) && declsWF rest

/-- Modelled from the spec: the incremental reparse.  When the edit's range
lies within a single top-level declaration (and the reparse of that
declaration stays a single declaration), only that declaration's node is
reparsed and the other nodes of the previous tree are reused; otherwise the
whole new text is reparsed from scratch. -/
def incrementalParse (t : List Char) (tree : List DeclNode) (start len : Nat)
    (ins : List Char) : List DeclNode :=
  match patchDecls (splitDecls t) start len ins with
  | some p => tree.set p.1 (parseDecl p.2)
  | none => parseFull (spliceText t start len ins)

/-- Modelled from the spec: symbol kinds. -/
inductive SymbolKind where
  | var
  | func
deriving DecidableEq

/-- Modelled from the spec: a symbol — name, kind, declaration span, and the
weak back-reference to the declaring node as an index into the tree's node
list. -/
structure Symbol where
  name : String
  kind : SymbolKind
  declSpan : List Char
  declIndex : Nat
deriving DecidableEq

/-- Modelled from the spec: the symbol table of the (single, global) scope. -/
abbrev SymbolTable := List Symbol

/-- Tokens the analyzer skips: whitespace and comments. -/
def isTrivia (t : Token) : Bool :=
  t.kind == TokenKind.whitespace || t.kind == TokenKind.comment

/-- Keywords that introduce a declaration. -/
def isDeclKeyword (t : Token) : Bool :=
  t.kind == TokenKind.keyword &&
    (String.mk t.span == "local" || String.mk t.span == "function")

/-- Modelled from the spec, Analyzer pass 1: collect the declarations of one
top-level node — each identifier directly following a local or function
keyword, tagged with the node index as the weak back-reference.  The Option
argument carries the kind of a just-seen declaration keyword. -/
def collectDecls (declIndex : Nat) : Option SymbolKind → List Token → List Symbol
  | _, [] => []
  | pending, t :: rest =>
    if isTrivia t then collectDecls declIndex pending rest
    else if isDeclKeyword t then
      collectDecls declIndex
        (some (if String.mk t.span == "function" then SymbolKind.func else SymbolKind.var)) rest
    else
      match pending with
      | some k =>
        if t.kind == TokenKind.identifier then
          { name := String.mk t.span, kind := k, declSpan := t.span,
            declIndex := declIndex } :: collectDecls declIndex none rest
        else collectDecls declIndex none rest
      | none => collectDecls declIndex none rest

/-- Modelled from the spec, Analyzer pass 2 input: the identifier uses of
one node — every identifier occurrence that is not itself the name being
declared.  The Bool argument records whether a declaration keyword directly
precedes. -/
def collectUses : Bool → List Token → List (String × List Char)
  | _, [] => []
  | afterDecl, t :: rest =>
    if isTrivia t then collectUses afterDecl rest
    else if isDeclKeyword t then collectUses true rest
    else if t.kind == TokenKind.identifier then
      (if afterDecl then [] else [(String.mk t.span, t.span)]) ++ collectUses false rest
    else collectUses false rest

/-- Modelled from the spec: the Analyzer.  Pass 1 collects all declarations
of the scope (forward-reference tolerant: collection runs over the whole
tree before any resolution); pass 2 resolves every identifier use against
the table and emits an undefined-symbol diagnostic at the use's span when
the name is absent. -/
def analyze (tree : List DeclNode) : SymbolTable × List Diagnostic :=
  let table := (tree.enum.map fun p => collectDecls p.1 none p.2.toks).flatten
  let uses := (tree.map fun d => collectUses false d.toks).flatten
  let diags := uses.filterMap fun u =>
    if table.any fun s => s.name == u.1 then none
    else some { severity := Severity.error, span := u.2,
                message := "undefined symbol: " ++ u.1, source := "analyzer" }
  (table, diags)

/-- Modelled from the spec: a stored document — version, text, owned tree,
owned symbol table, diagnostics, and the pending flag marking tree and
table as awaiting recomputation after an edit. -/
structure Document where
  version : Nat
  text : List Char
  tree : List DeclNode
  symbols : SymbolTable
  diags : List Diagnostic
  pending : Bool
deriving DecidableEq

/-- Modelled from the spec: the Incremental Document Store, a uri-keyed
association list of documents. -/
structure Store where
  docs : List (String × Document)
deriving DecidableEq

/-- Modelled from the spec: the store's error conditions. -/
inductive StoreError where
  | unknownDocument
  | staleVersion
deriving DecidableEq

/-- Lookup of a stored document by uri. -/
def lookupDoc : List (String × Document) → String → Option Document
  | [], _ => none
  | (u, d) :: rest, uri => if u == uri then some d else lookupDoc rest uri

/-- Apply a function to the stored document with the given uri, if any. -/
def updateDoc (f : Document → Document) :
    List (String × Document) → String → List (String × Document)
  | [], _ => []
  | (u, d) :: rest, uri =>
    if u == uri then (u, f d) :: rest else (u, d) :: updateDoc f rest uri

/-- Modelled from the spec: recomputation of a document's tree, symbol table
and diagnostics from its current text, clearing the pending flag.  The text
and version are untouched. -/
def refreshDoc (d : Document) : Document :=
  let tree := parseFull d.text
  let a := analyze tree
  { d with tree := tree, symbols := a.1, diags := a.2, pending := false }

/-- Modelled from the spec: open(uri, text) — store a fresh version-1
document for the text, analyzed. -/
def openDoc (s : Store) (uri : String) (text : List Char) : Store :=
  { docs := (uri,
      refreshDoc { version := 1, text := text, tree := [], symbols := [],
                   diags := [], pending := true }) :: s.docs }

/-- Modelled from the spec: applyEdit(uri, edit).  Fails with
unknownDocument when the uri was never opened and with staleVersion when
the edit's base version differs from the stored version, leaving the store
untouched in both failure cases; on success it splices the edit into the
text, bumps the version, marks the document pending, and returns the new
version. -/
def applyEdit (s : Store) (uri : String) (e : Edit) : Store × Except StoreError Nat :=
  match lookupDoc s.docs uri with
  | none => (s, Except.error StoreError.unknownDocument)
  | some d =>
    if e.baseVersion ≠ d.version then (s, Except.error StoreError.staleVersion)
    else
      ({ docs := updateDoc (fun d0 =>
           { d0 with text := spliceText d0.text e.start e.len e.newText,
                     version := d0.version + 1, pending := true }) s.docs uri },
       Except.ok (d.version + 1))

/-- Modelled from the spec: the lazy recomputation triggered by get or an
analysis request: refresh the document stored under the uri. -/
def analyzeNow (s : Store) (uri : String) : Store :=
  { docs := updateDoc refreshDoc s.docs uri }

/-- A concrete stored document at version 1, used to evaluate the store
operations at an explicit input. -/
def doc0 : Document :=
  { version := 1, text := ['a'], tree := [], symbols := [], diags := [],
    pending := true }

/-- A concrete one-document store holding doc0 under uri u. -/
def store0 : Store := { docs := [("u", doc0)] }

/-! ## Theorems about the extension front-ends -/

/-- C1: for every activation context, each front-end's activate resolves the
path to the external server executable, configures a document selector and a
file-system watcher, constructs the language client and starts the session;
each front-end's deactivate on the resulting state stops that session; and no
parsing, analysis or diagnostics effect occurs in either trace. -/
theorem C1_frontend_glue (ctx : ExtensionContext) :
    (∃ c : LanguageClient,
      (VSCodeExtension.activate ctx).1.client = some c ∧
      c.serverOptions.run.command =
        ctx.asAbsolutePath "../lsp-server/target/debug/React_lSP" ∧
      c.serverOptions.debug.command = c.serverOptions.run.command ∧
      c.clientOptions.documentSelector = [{ scheme := "file", language := ".luau" }] ∧
      c.clientOptions.synchronize.fileEventsGlob = "**/.clientrc" ∧
      (VSCodeExtension.activate ctx).2 =
        [Effect.createFileSystemWatcher "**/.clientrc", Effect.startClient c] ∧
      VSCodeExtension.deactivate (VSCodeExtension.activate ctx).1 =
        some (Effect.stopClient c)) ∧
    (∃ c : LanguageClient,
      (RblxReactLsp.activate ctx).1.client = some c ∧
      c.serverOptions.run.command =
        ctx.asAbsolutePath "../lsp-server/target/debug/React_LSP.exe" ∧
      c.serverOptions.debug.command = c.serverOptions.run.command ∧
      c.clientOptions.documentSelector = [{ scheme := "file", language := "lua" }] ∧
      c.clientOptions.synchronize.fileEventsGlob = "**/.clientrc" ∧
      (RblxReactLsp.activate ctx).2 =
        [Effect.createFileSystemWatcher "**/.clientrc",
         Effect.consoleLog "Server V3 starting...",
         Effect.startClient c,
         Effect.consoleLog "Server V3 started!"] ∧
      RblxReactLsp.deactivate (RblxReactLsp.activate ctx).1 =
        some (Effect.stopClient c)) ∧
    ((VSCodeExtension.activate ctx).2.all fun e => !e.isAnalysisWork) = true ∧
    ((RblxReactLsp.activate ctx).2.all fun e => !e.isAnalysisWork) = true := by
  exact ⟨⟨_, rfl, rfl, rfl, rfl, rfl, rfl, rfl⟩,
    ⟨_, rfl, rfl, rfl, rfl, rfl, rfl, rfl⟩, rfl, rfl⟩

/-- C2 counterexample: at the identity-path activation context, the two
front-ends construct language clients with different server executable paths
(React_lSP versus React_LSP.exe) and different document selectors
(language .luau versus lua), so their activate functions are not
extensionally equal as the claim states. -/
theorem C2_counterexample :
    ((VSCodeExtension.activate ctx0).1.client.map fun c => c.serverOptions.run.command) ≠
      ((RblxReactLsp.activate ctx0).1.client.map fun c => c.serverOptions.run.command) ∧
    ((VSCodeExtension.activate ctx0).1.client.map fun c => c.clientOptions.documentSelector) ≠
      ((RblxReactLsp.activate ctx0).1.client.map fun c => c.clientOptions.documentSelector) := by
  constructor <;> decide

/-- C2 (amended): for every activation context the two front-ends construct
language clients agreeing on id, display name, stdio transport and watcher
glob, but the vscode-extension front-end resolves executable React_lSP with
document-selector language .luau while the rblx-react-lsp front-end resolves
executable React_LSP.exe with language lua, so the selectors (and the
relative executable paths) differ. -/
theorem C2_amended (ctx : ExtensionContext) :
    ∃ cv cr : LanguageClient,
      (VSCodeExtension.activate ctx).1.client = some cv ∧
      (RblxReactLsp.activate ctx).1.client = some cr ∧
      cv.id = cr.id ∧ cv.name = cr.name ∧
      cv.serverOptions.run.transport = TransportKind.stdio ∧
      cr.serverOptions.run.transport = TransportKind.stdio ∧
      cv.clientOptions.synchronize = cr.clientOptions.synchronize ∧
      cv.serverOptions.run.command =
        ctx.asAbsolutePath "../lsp-server/target/debug/React_lSP" ∧
      cr.serverOptions.run.command =
        ctx.asAbsolutePath "../lsp-server/target/debug/React_LSP.exe" ∧
      cv.clientOptions.documentSelector = [{ scheme := "file", language := ".luau" }] ∧
      cr.clientOptions.documentSelector = [{ scheme := "file", language := "lua" }] ∧
      cv.clientOptions.documentSelector ≠ cr.clientOptions.documentSelector := by
  refine ⟨_, _, rfl, rfl, rfl, rfl, rfl, rfl, rfl, rfl, rfl, rfl, rfl, ?_⟩
  show ([{ scheme := "file", language := ".luau" }] : List DocumentFilter) ≠
    [{ scheme := "file", language := "lua" }]
  decide

/-- C3 counterexample: in the state where activate never assigned the
module-level client, an execution of deactivate in either front-end takes the
guard branch and returns undefined, forwarding no stop() call — a branch
other than the direct forwarding the claim allows. -/
theorem C3_counterexample :
    VSCodeExtension.deactivate { client := none } = none ∧
    RblxReactLsp.deactivate { client := none } = none :=
  ⟨rfl, rfl⟩

/-- C3 (amended): the glue performs no failure handling beyond forwarding:
every activate execution forwards exactly one start() call and performs no
stop, parse, analysis or diagnostics effect; every deactivate execution
either takes the single guard branch (returning undefined when no client was
assigned) or directly forwards stop() — deactivate is exactly the map of
client.stop() over the optional client. -/
theorem C3_amended (ctx : ExtensionContext) (st : ExtState) :
    ((VSCodeExtension.activate ctx).2.countP fun e => e.isStart) = 1 ∧
    ((RblxReactLsp.activate ctx).2.countP fun e => e.isStart) = 1 ∧
    ((VSCodeExtension.activate ctx).2.countP fun e => e.isStop) = 0 ∧
    ((RblxReactLsp.activate ctx).2.countP fun e => e.isStop) = 0 ∧
    ((VSCodeExtension.activate ctx).2.all fun e => !e.isAnalysisWork) = true ∧
    ((RblxReactLsp.activate ctx).2.all fun e => !e.isAnalysisWork) = true ∧
    VSCodeExtension.deactivate st = (st.client.map fun c => Effect.stopClient c) ∧
    RblxReactLsp.deactivate st = (st.client.map fun c => Effect.stopClient c) := by
  obtain ⟨cl⟩ := st
  cases cl <;> exact ⟨rfl, rfl, rfl, rfl, rfl, rfl, rfl, rfl⟩

/-- C4: for every module state, deactivate of either front-end returns
undefined without calling stop when the client was never assigned, and
otherwise returns exactly the client.stop() call of the assigned client. -/
theorem C4_deactivate_guard (st : ExtState) :
    (st.client = none →
      VSCodeExtension.deactivate st = none ∧ RblxReactLsp.deactivate st = none) ∧
    (∀ c : LanguageClient, st.client = some c →
      VSCodeExtension.deactivate st = some (Effect.stopClient c) ∧
      RblxReactLsp.deactivate st = some (Effect.stopClient c)) := by
  constructor
  · intro h
    constructor <;> simp [VSCodeExtension.deactivate, RblxReactLsp.deactivate, h]
  · intro c h
    constructor <;> simp [VSCodeExtension.deactivate, RblxReactLsp.deactivate, h]

/-- C4 witness: the guard case at the unassigned state and the forwarding
case at a concrete assigned client. -/
theorem C4_witness :
    (VSCodeExtension.deactivate { client := none } = none ∧
      RblxReactLsp.deactivate { client := none } = none) ∧
    (VSCodeExtension.deactivate { client := some client0 } =
        some (Effect.stopClient client0) ∧
      RblxReactLsp.deactivate { client := some client0 } =
        some (Effect.stopClient client0)) :=
  ⟨(C4_deactivate_guard { client := none }).1 rfl,
   (C4_deactivate_guard { client := some client0 }).2 client0 rfl⟩

/-! ## Theorems about the modelled LSP engine -/

/-- C5: the Protocol Session follows the state machine Uninitialized →
Initialized → ShuttingDown → Closed: initialize is accepted from the
uninitialized state and only from there (so exactly one initialize is
accepted before leaving it); every other request while uninitialized fails
with serverNotInitialized except shutdown and exit, which are accepted in
every state before closed; exit always reaches closed; every message after
exit fails with invalidState; and along every message sequence the state
only advances along the chain. -/
theorem C5_session_state_machine :
    step SessionState.uninitialized Method.initReq =
      (SessionState.initialized, Except.ok ()) ∧
    (∀ m : Method, m.isRequest = true → m ≠ Method.initReq →
      m ≠ Method.shutdownReq →
      step SessionState.uninitialized m =
        (SessionState.uninitialized, Except.error SessionError.serverNotInitialized)) ∧
    (∀ s : SessionState, (step s Method.initReq).2 = Except.ok () →
      s = SessionState.uninitialized) ∧
    (∀ s : SessionState, s ≠ SessionState.closed →
      (step s Method.shutdownReq).2 = Except.ok () ∧
      step s Method.exitNote = (SessionState.closed, Except.ok ())) ∧
    (∀ m : Method, step SessionState.closed m =
      (SessionState.closed, Except.error SessionError.invalidState)) ∧
    (∀ (s : SessionState) (m : Method), s.rank ≤ ((step s m).1).rank) ∧
    (∀ (msgs : List Method) (s : SessionState), s.rank ≤ (runSession s msgs).rank) ∧
    runSession SessionState.uninitialized [Method.shutdownReq, Method.exitNote] =
      SessionState.closed := by
  have hstep : ∀ (s : SessionState) (m : Method), s.rank ≤ ((step s m).1).rank := by
    intro s m
    cases s <;> cases m <;> simp [step, SessionState.rank]
  have hrun : ∀ (msgs : List Method) (s : SessionState),
      s.rank ≤ (runSession s msgs).rank := by
    intro msgs
    induction msgs with
    | nil => intro s; exact le_refl _
    | cons m ms ih =>
      intro s
      exact le_trans (hstep s m) (ih (step s m).1)
  refine ⟨rfl, ?_, ?_, ?_, ?_, hstep, hrun, rfl⟩
  · intro m hm h1 h2
    cases m <;> simp_all [step, Method.isRequest]
  · intro s hs
    cases s <;> simp_all [step]
  · intro s hs
    cases s <;> simp_all [step]
  · intro m
    cases m <;> rfl

/-- The kind of the token produced by one lexer step is never end-of-file. -/
theorem lexOne_kind_ne_eof (c : Char) (cs : List Char) :
    ((lexOne c cs).1 == TokenKind.eof) = false := by
  unfold lexOne
  repeat' first
    | rfl
    | split
    | dsimp only

/-- The lexer never produces an empty token list. -/
theorem lexAll_ne_nil (l : List Char) : lexAll l ≠ [] := by
  cases l <;> rw [lexAll] <;> simp

/-- The token list of any input holds exactly one end-of-file token, and it
is the last one, with an empty span. -/
theorem lexAll_eof_shape (l : List Char) :
    ((lexAll l).countP fun t => t.kind == TokenKind.eof) = 1 ∧
    (lexAll l).getLast? = some { kind := TokenKind.eof, span := [] } := by
  match l with
  | [] => rw [lexAll]; exact ⟨rfl, rfl⟩
  | c :: cs =>
    have ih := lexAll_eof_shape (cs.drop (lexOne c cs).2)
    rw [lexAll]
    constructor
    · simp only [List.countP_cons, lexOne_kind_ne_eof]
      simpa using ih.1
    · obtain ⟨x, xs, hx⟩ := List.exists_cons_of_ne_nil (lexAll_ne_nil (cs.drop (lexOne c cs).2))
      have h2 := ih.2
      rw [hx] at h2 ⊢
      simpa [List.getLast?_cons_cons] using h2
termination_by l.length
decreasing_by simp [List.length_drop]; omega

/-- Each invalid token contributes exactly one diagnostic. -/
theorem length_filterMap_invalidDiag (ts : List Token) :
    (ts.filterMap invalidDiag).length = ts.countP fun t => t.kind == TokenKind.invalid := by
  induction ts with
  | nil => rfl
  | cons t rest ih =>
    by_cases h : t.kind = TokenKind.invalid <;>
      simp [invalidDiag, List.filterMap_cons, List.countP_cons, h, ih]

/-- C7: the Lexer is total — on every input (empty included) it yields a
finite token list containing exactly one end-of-file token, placed last with
an empty span, and it attaches exactly one diagnostic per invalid
(unrecognized-character) token instead of failing. -/
theorem C7_lexer_total (l : List Char) :
    ((lexAll l).countP fun t => t.kind == TokenKind.eof) = 1 ∧
    (lexAll l).getLast? = some { kind := TokenKind.eof, span := [] } ∧
    (lexerDiagnostics l).length =
      ((lexAll l).countP fun t => t.kind == TokenKind.invalid) :=
  ⟨(lexAll_eof_shape l).1, (lexAll_eof_shape l).2,
   length_filterMap_invalidDiag (lexAll l)⟩

/-- C8: concatenating the spans of all tokens produced by the Lexer, in
order, reproduces the source text exactly. -/
theorem C8_lexer_round_trip (l : List Char) :
    ((lexAll l).map Token.span).flatten = l := by
  match l with
  | [] => rw [lexAll]; rfl
  | c :: cs =>
    have ih := C8_lexer_round_trip (cs.drop (lexOne c cs).2)
    rw [lexAll]
    simp only [List.map_cons, List.flatten_cons, ih, List.cons_append]
    rw [List.take_append_drop]
termination_by l.length
decreasing_by simp [List.length_drop]; omega

/-- Appending preserves the absence of terminators componentwise. -/
theorem noSemi_append (a b : List Char) :
    noSemi (a ++ b) = (noSemi a && noSemi b) := by
  induction a with
  | nil => simp [noSemi]
  | cons c cs ih => simp [noSemi, ih, Bool.and_assoc]

/-- Reversal preserves the absence of terminators. -/
theorem noSemi_reverse (a : List Char) : noSemi a.reverse = noSemi a := by
  induction a with
  | nil => rfl
  | cons c cs ih =>
    simp [List.reverse_cons, noSemi_append, noSemi, ih, Bool.and_comm]

/-- Splitting a text that starts with a terminator-free run followed by a
terminator peels off exactly that closed chunk. -/
theorem splitDeclsAux_closed (a : List Char) (ha : noSemi a = true) :
    ∀ (r acc : List Char),
      splitDeclsAux (a ++ ';' :: r) acc =
        ((acc.reverse ++ a) ++ [';']) :: splitDeclsAux r [] := by
  induction a with
  | nil =>
    intro r acc
    simp [splitDeclsAux]
  | cons b a2 ih =>
    intro r acc
    simp only [noSemi, Bool.and_eq_true, bne_iff_ne, ne_eq] at ha
    rw [List.cons_append, splitDeclsAux, if_neg ha.1, ih ha.2 r (b :: acc)]
    simp [List.append_assoc]

/-- Splitting a terminator-free text yields it as the single (possibly
empty, hence absent) chunk. -/
theorem splitDeclsAux_noSemi (a : List Char) (ha : noSemi a = true) :
    ∀ acc : List Char,
      splitDeclsAux a acc =
        if acc.reverse ++ a = [] then [] else [acc.reverse ++ a] := by
  induction a with
  | nil =>
    intro acc
    by_cases h : acc = [] <;> simp [splitDeclsAux, h]
  | cons b a2 ih =>
    intro acc
    simp only [noSemi, Bool.and_eq_true, bne_iff_ne, ne_eq] at ha
    rw [splitDeclsAux, if_neg ha.1, ih ha.2 (b :: acc)]
    simp [List.append_assoc]

/-- A closed declaration is a terminator-free run plus the terminator. -/
theorem isClosedDecl_eq (d : List Char) (h : isClosedDecl d = true) :
    ∃ a, noSemi a = true ∧ d = a ++ [';'] := by
  unfold isClosedDecl at h
  simp only [Bool.and_eq_true, Bool.not_eq_true', List.isEmpty_eq_false,
    beq_iff_eq, ne_eq] at h
  obtain ⟨⟨hne, hlast⟩, hns⟩ := h
  refine ⟨d.dropLast, hns, ?_⟩
  have hd := List.dropLast_append_getLast hne
  rw [List.getLast?_eq_getLast d hne] at hlast
  rw [Option.some_inj] at hlast
  rw [hlast] at hd
  exact hd.symm

/-- A terminator-free run plus the terminator is a closed declaration. -/
theorem isClosedDecl_append_semi (a : List Char) (ha : noSemi a = true) :
    isClosedDecl (a ++ [';']) = true := by
  unfold isClosedDecl
  simp [List.getLast?_concat, List.dropLast_concat, ha]

/-- splitDecls peels off a leading closed declaration. -/
theorem splitDecls_closed_append (d r : List Char) (h : isClosedDecl d = true) :
    splitDecls (d ++ r) = d :: splitDecls r := by
  obtain ⟨a, ha, rfl⟩ := isClosedDecl_eq d h
  unfold splitDecls
  rw [List.append_assoc, List.singleton_append, splitDeclsAux_closed a ha r []]
  simp

/-- splitDecls of an open declaration is that single chunk. -/
theorem splitDecls_open (d : List Char) (h : isOpenDecl d = true) :
    splitDecls d = [d] := by
  unfold isOpenDecl at h
  simp only [Bool.and_eq_true, Bool.not_eq_true', List.isEmpty_eq_false, ne_eq] at h
  obtain ⟨hne, hns⟩ := h
  unfold splitDecls
  rw [splitDeclsAux_noSemi d hns []]
  simp [hne]

/-- The chunks produced by splitting concatenate back to the input
(accumulator form). -/
theorem splitDeclsAux_flatten (l : List Char) :
    ∀ acc, (splitDeclsAux l acc).flatten = acc.reverse ++ l := by
  induction l with
  | nil =>
    intro acc
    by_cases h : acc = [] <;> simp [splitDeclsAux, h]
  | cons c cs ih =>
    intro acc
    rw [splitDeclsAux]
    by_cases h : c = ';'
    · rw [if_pos h]
      simp [List.flatten_cons, ih, List.append_assoc, h]
    · rw [if_neg h, ih (c :: acc)]
      simp

/-- The declaration chunks concatenate back to the source text. -/
theorem flatten_splitDecls (l : List Char) : (splitDecls l).flatten = l := by
  unfold splitDecls
  rw [splitDeclsAux_flatten]
  simp

/-- Splitting always yields a well-formed chunk list (accumulator form). -/
theorem declsWF_splitDeclsAux (l : List Char) :
    ∀ acc, noSemi acc = true → declsWF (splitDeclsAux l acc) = true := by
  induction l with
  | nil =>
    intro acc ha
    by_cases h : acc = []
    · simp [splitDeclsAux, h, declsWF]
    · have hrev : noSemi acc.reverse = true := by rw [noSemi_reverse]; exact ha
      have hop : isOpenDecl acc.reverse = true := by
        unfold isOpenDecl
        simp [hrev, h]
      simp [splitDeclsAux, h, declsWF, hop]
  | cons c cs ih =>
    intro acc ha
    rw [splitDeclsAux]
    by_cases h : c = ';'
    · rw [if_pos h]
      have h1 : isClosedDecl (acc.reverse ++ [';']) = true :=
        isClosedDecl_append_semi acc.reverse (by rw [noSemi_reverse]; exact ha)
      rw [declsWF]
      simp [h1, ih [] rfl]
    · rw [if_neg h]
      exact ih (c :: acc) (by simp [noSemi, h, ha])

/-- Splitting always yields a well-formed chunk list. -/
theorem declsWF_splitDecls (l : List Char) : declsWF (splitDecls l) = true :=
  declsWF_splitDeclsAux l [] rfl

/-- Splitting is a left inverse of concatenation on well-formed chunk
lists. -/
theorem splitDecls_flatten_of_WF (ds : List (List Char)) (h : declsWF ds = true) :
    splitDecls ds.flatten = ds := by
  induction ds with
  | nil => rfl
  | cons d rest ih =>
    rw [declsWF] at h
    simp only [Bool.and_eq_true, Bool.or_eq_true, List.isEmpty_iff] at h
    obtain ⟨hd, hrest⟩ := h
    rw [List.flatten_cons]
    cases hd with
    | inl hc => rw [splitDecls_closed_append d _ hc, ih hrest]
    | inr ho =>
      obtain ⟨hre, hop⟩ := ho
      subst hre
      simp [splitDecls_open d hop]

/-- When patchDecls locates the single declaration containing the edit, the
full split of the spliced text is the old chunk list with just that chunk
replaced. -/
theorem patchDecls_spec (ds : List (List Char)) :
    ∀ (start len : Nat) (ins : List Char) (i : Nat) (nd : List Char),
      declsWF ds = true →
      patchDecls ds start len ins = some (i, nd) →
      splitDecls (spliceText ds.flatten start len ins) = ds.set i nd := by
  induction ds with
  | nil =>
    intro start len ins i nd _ hp
    exact Option.noConfusion hp
  | cons d rest ih =>
    intro start len ins i nd hwf hp
    rw [declsWF] at hwf
    simp only [Bool.and_eq_true, Bool.or_eq_true, List.isEmpty_iff] at hwf
    obtain ⟨hd, hrest⟩ := hwf
    rw [patchDecls] at hp
    rw [List.flatten_cons]
    by_cases h1 : start + len ≤ d.length
    · rw [if_pos h1] at hp
      by_cases h2 : (isClosedDecl (d.take start ++ ins ++ d.drop (start + len)) ||
          (rest.isEmpty && isOpenDecl (d.take start ++ ins ++ d.drop (start + len)))) = true
      · rw [if_pos h2] at hp
        simp only [Option.some_inj, Prod.mk.injEq] at hp
        obtain ⟨hi, hnd⟩ := hp
        subst hi
        subst hnd
        have hsplice : spliceText (d ++ rest.flatten) start len ins =
            (d.take start ++ ins ++ d.drop (start + len)) ++ rest.flatten := by
          unfold spliceText
          rw [List.take_append_eq_append_take, List.drop_append_eq_append_drop]
          have e1 : start - d.length = 0 := by omega
          have e2 : start + len - d.length = 0 := by omega
          rw [e1, e2]
          simp [List.append_assoc]
        rw [hsplice]
        simp only [Bool.or_eq_true, Bool.and_eq_true, List.isEmpty_iff] at h2
        cases h2 with
        | inl hc =>
          rw [splitDecls_closed_append _ _ hc, splitDecls_flatten_of_WF rest hrest]
          rfl
        | inr ho =>
          obtain ⟨hre, hop⟩ := ho
          subst hre
          rw [List.append_assoc] at hop
          simp [splitDecls_open _ hop]
      · rw [if_neg h2] at hp
        exact Option.noConfusion hp
    · rw [if_neg h1] at hp
      by_cases h3 : d.length ≤ start
      · rw [if_pos h3] at hp
        cases hq : patchDecls rest (start - d.length) len ins with
        | none =>
          rw [hq] at hp
          exact Option.noConfusion hp
        | some q =>
          rw [hq] at hp
          simp only [Option.map_some', Option.some_inj, Prod.mk.injEq] at hp
          obtain ⟨hi, hnd⟩ := hp
          have hrne : rest ≠ [] := by
            intro hre
            subst hre
            exact Option.noConfusion hq
          have hdc : isClosedDecl d = true := by
            cases hd with
            | inl h => exact h
            | inr h => exact absurd h.1 hrne
          have hsplice : spliceText (d ++ rest.flatten) start len ins =
              d ++ spliceText rest.flatten (start - d.length) len ins := by
            unfold spliceText
            rw [List.take_append_eq_append_take, List.drop_append_eq_append_drop]
            rw [List.take_of_length_le h3,
              List.drop_of_length_le (by omega : d.length ≤ start + len)]
            have e : start + len - d.length = (start - d.length) + len := by omega
            rw [e]
            simp [List.append_assoc]
          rw [hsplice, splitDecls_closed_append d _ hdc,
            ih (start - d.length) len ins q.1 q.2 hrest (by rw [hq])]
          rw [← hi, ← hnd]
          rfl
      · rw [if_neg h3] at hp
        exact Option.noConfusion hp

/-- C9: incremental-vs-full equivalence — for every document text and every
edit, reparsing incrementally (reusing the unaffected declaration nodes and
reparsing only the declaration containing the edit when the edit lies within
a single top-level declaration, falling back to a full reparse otherwise)
yields exactly the tree of a from-scratch parse of the new text. -/
theorem C9_incremental_full_equiv (t : List Char) (start len : Nat) (ins : List Char) :
    incrementalParse t (parseFull t) start len ins =
      parseFull (spliceText t start len ins) := by
  unfold incrementalParse
  cases hp : patchDecls (splitDecls t) start len ins with
  | none => rfl
  | some p =>
    obtain ⟨i, nd⟩ := p
    have hspec := patchDecls_spec (splitDecls t) start len ins i nd
      (declsWF_splitDecls t) hp
    rw [flatten_splitDecls] at hspec
    show (parseFull t).set i (parseDecl nd) = parseFull (spliceText t start len ins)
    unfold parseFull
    rw [hspec, List.map_set]

/-- C6: applyEdit fails with unknownDocument when the uri was never opened,
and with staleVersion when the edit's base version differs from the stored
version; in both failure cases the returned store is exactly the input
store, so the stored document (text, version, tree, symbol table) is left
unmodified. -/
theorem C6_applyEdit_failures (s : Store) (uri : String) (e : Edit) :
    (lookupDoc s.docs uri = none →
      applyEdit s uri e = (s, Except.error StoreError.unknownDocument)) ∧
    (∀ d : Document, lookupDoc s.docs uri = some d → e.baseVersion ≠ d.version →
      applyEdit s uri e = (s, Except.error StoreError.staleVersion)) := by
  constructor
  · intro h
    simp [applyEdit, h]
  · intro d hd hv
    simp [applyEdit, hd, hv]

/-- C6 witness: an edit against an empty store fails with unknownDocument,
and an edit whose base version 2 mismatches the stored version 1 fails with
staleVersion, both returning the store unchanged. -/
theorem C6_witness :
    applyEdit { docs := [] } "u" { start := 0, len := 0, newText := [], baseVersion := 1 } =
      ({ docs := [] }, Except.error StoreError.unknownDocument) ∧
    applyEdit store0 "u" { start := 0, len := 0, newText := [], baseVersion := 2 } =
      (store0, Except.error StoreError.staleVersion) :=
  ⟨(C6_applyEdit_failures { docs := [] } "u"
      { start := 0, len := 0, newText := [], baseVersion := 1 }).1 rfl,
   (C6_applyEdit_failures store0 "u"
      { start := 0, len := 0, newText := [], baseVersion := 2 }).2 doc0 rfl
      (by decide)⟩

/-- Recomputing a document from its unchanged text twice equals recomputing
it once. -/
theorem refreshDoc_idem (d : Document) : refreshDoc (refreshDoc d) = refreshDoc d := rfl

/-- Updating a stored document with an idempotent function twice equals
updating it once. -/
theorem updateDoc_idem (f : Document → Document) (hf : ∀ d, f (f d) = f d)
    (docs : List (String × Document)) (uri : String) :
    updateDoc f (updateDoc f docs uri) uri = updateDoc f docs uri := by
  induction docs with
  | nil => rfl
  | cons p rest ih =>
    obtain ⟨u, d⟩ := p
    by_cases hu : (u == uri) = true
    · simp [updateDoc, hu, hf]
    · simp [updateDoc, hu, ih]

/-- C10: running the Analyzer twice on an unchanged document yields the
identical store, hence identical symbol tables and identical diagnostic
lists for the document. -/
theorem C10_analysis_idempotent (s : Store) (uri : String) :
    analyzeNow (analyzeNow s uri) uri = analyzeNow s uri ∧
    ((lookupDoc (analyzeNow (analyzeNow s uri) uri).docs uri).map
        fun d => (d.symbols, d.diags)) =
      ((lookupDoc (analyzeNow s uri).docs uri).map
        fun d => (d.symbols, d.diags)) := by
  have h1 : analyzeNow (analyzeNow s uri) uri = analyzeNow s uri := by
    simp only [analyzeNow]
    exact congrArg Store.mk (updateDoc_idem refreshDoc refreshDoc_idem s.docs uri)
  exact ⟨h1, by rw [h1]⟩

/-- C5 witness: hover before initialize fails with serverNotInitialized;
shutdown then exit from the initialized state reaches closed; hover after
exit fails with invalidState. -/
theorem C5_witness :
    step SessionState.uninitialized Method.hover =
      (SessionState.uninitialized, Except.error SessionError.serverNotInitialized) ∧
    (step SessionState.initialized Method.shutdownReq).2 = Except.ok () ∧
    step SessionState.shuttingDown Method.exitNote =
      (SessionState.closed, Except.ok ()) ∧
    step SessionState.closed Method.hover =
      (SessionState.closed, Except.error SessionError.invalidState) :=
  ⟨C5_session_state_machine.2.1 Method.hover rfl (by decide) (by decide),
   (C5_session_state_machine.2.2.2.1 SessionState.initialized (by decide)).1,
   (C5_session_state_machine.2.2.2.1 SessionState.shuttingDown (by decide)).2,
   C5_session_state_machine.2.2.2.2.1 Method.hover⟩

end RblxReact
